import Mathlib

/-- One image file: decode state, score, and the filesystem environment of
its path (see the modelling conventions above). Mirrors class Pic of
pic.py. -/
structure Pic where
  name : String
  fsExists : Bool
  fsIsFile : Bool
  fsRemoveOk : Bool
  fileW : Nat
  fileH : Nat
  score : ℚ
  is_checked : Bool
  is_showable : Bool
  is_loaded : Bool
  origW : Nat
  origH : Nat
  scaledW : Nat
  scaledH : Nat
deriving DecidableEq

/-- QPixmap.isNull: the null pixmap has zero size. -/
def pixNull (w h : Nat) : Bool := w == 0 && h == 0

/-- Pic.load from pic.py: returns True when already loaded; when checked and
not showable returns False; otherwise attempts the decode, recording the
outcome in the checked, showable and loaded flags. -/
def Pic.load (p : Pic) : Pic × Bool :=
  if p.is_loaded then (p, true)
  else if p.is_checked && !p.is_showable then (p, false)
  else
    let q : Pic := { p with is_checked := true, is_showable := false }
    if q.fsExists && q.fsIsFile then
      let q2 : Pic := { q with origW := q.fileW, origH := q.fileH }
      if pixNull q2.origW q2.origH then (q2, false)
      else ({ q2 with is_showable := true, is_loaded := true }, true)
    else (q, false)

/-- Pic.unload from pic.py: releases both pixmaps (reset to null) and clears
the loaded flag; always returns True. -/
def Pic.unload (p : Pic) : Pic × Bool :=
  if p.is_loaded then
    ({ p with origW := 0, origH := 0, scaledW := 0, scaledH := 0,
              is_loaded := false }, true)
  else (p, true)

/-- Pic.showable from pic.py: triggers a load when not yet checked, then
returns the cached showable flag. -/
def Pic.showable (p : Pic) : Pic × Bool :=
  if !p.is_checked then
    let q := (p.load).1
    (q, q.is_showable)
  else (p, p.is_showable)

/-- Pic.score_set from pic.py: stores the score, clamping below at zero with
an unload side effect, and triggering a load when the stored score is at
least one; returns the stored score. -/
def Pic.score_set (p : Pic) (n : ℚ) : Pic × ℚ :=
  let q : Pic := { p with score := n }
  if q.score ≤ 0 then
    let q2 : Pic := { q with score := 0 }
    let q3 := (q2.unload).1
    (q3, q3.score)
  else if 1 ≤ q.score then
    let q2 := (q.load).1
    (q2, q2.score)
  else (q, q.score)

/-- Pic.score_add from pic.py. -/
def Pic.score_add (p : Pic) (n : ℚ) : Pic × ℚ :=
  p.score_set (p.score + n)

/-- Pic.delete_file from pic.py: unloads when loaded, then attempts to
remove the backing file; an OSError from os.remove is reported as False. -/
def Pic.delete_file (p : Pic) : Pic × Bool :=
  let q := if p.is_loaded then (p.unload).1 else p
  if q.fsExists && q.fsIsFile then
    if q.fsRemoveOk then ({ q with fsExists := false, is_showable := false }, true)
    else (q, false)
  else (q, false)

/-- QSize scaling with Qt.KeepAspectRatio as implemented by QSize.scaled:
the largest size fitting inside the target that preserves the source
aspect, computed with truncating integer division. -/
def qtScaledKeep (ow oh sw sh : Nat) : Nat × Nat :=
  let rw := sh * ow / oh
  if rw ≤ sw then (rw, sh) else (sw, sw * oh / ow)

/-- Pic.scale_image from pic.py. Requires showability (triggering a lazy
check) and an implicit load; then dispatches on the rescale mode. Mode 0
keys its no-change test on the constraining axis, comparing widths when the
target aspect (height over width, as real division) is at least the source
aspect, and heights otherwise. The mode 0 early returns of the source are
written as a single no-change test with the identical semantics. -/
def Pic.scale_image (p0 : Pic) (sw sh : Nat) (mode : Int) : Pic × Bool :=
  let r := p0.showable
  if !r.2 then (r.1, false)
  else
    let p := if !r.1.is_loaded then (r.1.load).1 else r.1
    if mode = 0 then
      let noChange :=
        if (sh : ℚ) / (sw : ℚ) ≥ (p.origH : ℚ) / (p.origW : ℚ)
        then sw = p.scaledW else sh = p.scaledH
      if noChange then (p, false)
      else
        let s := qtScaledKeep p.origW p.origH sw sh
        ({ p with scaledW := s.1, scaledH := s.2 }, true)
    else if mode = 1 then
      if p.scaledW ≠ p.origW ∨ p.scaledH ≠ p.origH then
        ({ p with scaledW := p.origW, scaledH := p.origH }, true)
      else (p, false)
    else if mode = 2 then
      if p.scaledW ≠ sw ∨ p.scaledH ≠ sh then
        ({ p with scaledW := sw, scaledH := sh }, true)
      else (p, false)
    else if mode = 3 then
      if p.scaledH ≠ sh then
        let s := qtScaledKeep p.origW p.origH (2 * sw) sh
        ({ p with scaledW := s.1, scaledH := s.2 }, true)
      else (p, false)
    else if mode = 4 then
      if p.scaledW ≠ sw then
        let s := qtScaledKeep p.origW p.origH sw (2 * sh)
        ({ p with scaledW := s.1, scaledH := s.2 }, true)
      else (p, false)
    else (p, false)

/-- An image collection built from one directory or file. Mirrors class
PicAxiv of picaxiv.py; the filesystem scan of the constructor is external
input, so a PicAxiv value enters the model already constructed. -/
structure PicAxiv where
  name : String
  is_checked : Bool
  is_showable : Bool
  axiv : List Pic
  pic_idx : Int
deriving DecidableEq

/-- Iterate an index-stepping function a fixed number of times, the
embedding of a Python counting loop. -/
def iterN (f : Int → Int) : Nat → Int → Int
  | 0, j => j
  | m + 1, j => iterN f m (f j)

/-- One forward wrap step of PicAxiv.offset_idx: increment, and reset to
zero when the end is passed. -/
def stepFwd (n j : Int) : Int :=
  if n ≤ j + 1 then 0 else j + 1

/-- One backward wrap step of PicAxiv.offset_idx: decrement, and reset to
the last index when the start is passed. -/
def stepBack (n j : Int) : Int :=
  if j - 1 < 0 then n - 1 else j - 1

/-- One wrap step of AhoView.offset_idx in main.py: add the unit direction,
then reset to zero past the end, or to the last index before the start. -/
def stepK (n k j : Int) : Int :=
  if n ≤ j + k then 0 else if j + k < 0 then n - 1 else j + k

/-- PicAxiv.offset_idx from picaxiv.py: zero on an empty collection,
otherwise the cursor walked offset single steps with cyclic wrap. -/
def PicAxiv.offset_idx (a : PicAxiv) (offset : Int) : Int :=
  if a.axiv.isEmpty then 0
  else if offset < 0 then iterN (stepBack a.axiv.length) offset.natAbs a.pic_idx
  else if 0 < offset then iterN (stepFwd a.axiv.length) offset.natAbs a.pic_idx
  else a.pic_idx

/-- Python list index resolution: a negative index counts from the end; the
result is the resolved nonnegative position, or none for an IndexError. -/
def pyIndex (len : Nat) (i : Int) : Option Nat :=
  let j := if i < 0 then (len : Int) + i else i
  if 0 ≤ j ∧ j < (len : Int) then some j.toNat else none

/-- Python list subscription: the element at the resolved position, or an
error for an uncaught IndexError. -/
def pyGetElem {α : Type} (l : List α) (i : Int) : Except Unit α :=
  match pyIndex l.length i with
  | none => .error ()
  | some j =>
    match l.get? j with
    | none => .error ()
    | some a => .ok a

/-- Scan of PicAxiv.showable over the entry list: each entry is probed in
order (mutating it), stopping at the first showable one; returns the list
with the probed entries replaced and the found position. -/
def scanShowable : List Pic → List Pic × Option Nat
  | [] => ([], none)
  | p :: ps =>
    let r := p.showable
    if r.2 then (r.1 :: ps, some 0)
    else
      match scanShowable ps with
      | (ps1, none) => (r.1 :: ps1, none)
      | (ps1, some i) => (r.1 :: ps1, some (i + 1))

/-- PicAxiv.showable from picaxiv.py: cached after the first scan; on the
first showable entry the cursor moves to it and the result is cached as
showable. -/
def PicAxiv.showable (a : PicAxiv) : PicAxiv × Bool :=
  if a.is_checked then (a, a.is_showable)
  else
    match scanShowable a.axiv with
    | (l, some i) =>
      ({ a with axiv := l, is_showable := true, is_checked := true,
                pic_idx := (i : Int) }, true)
    | (l, none) =>
      ({ a with axiv := l, is_showable := false, is_checked := true }, false)

/-- PicAxiv.ptr from picaxiv.py: none on an empty collection, otherwise the
entry at the wrapped offset, via Python list subscription. -/
def PicAxiv.ptr (a : PicAxiv) (m : Int) : Except Unit (Option Pic) :=
  if a.axiv.isEmpty then .ok none
  else
    match pyGetElem a.axiv (a.offset_idx m) with
    | .error e => .error e
    | .ok p => .ok (some p)

/-- Position-level variant of PicAxiv.ptr used to embed mutation through
the returned object reference: returns the resolved list position of the
entry that ptr would return. -/
def PicAxiv.ptrIdx (a : PicAxiv) (m : Int) : Except Unit (Option Nat) :=
  if a.axiv.isEmpty then .ok none
  else
    match pyIndex a.axiv.length (a.offset_idx m) with
    | none => .error ()
    | some j => .ok (some j)

/-- The main window state: the open collections and the active index.
Mirrors class AhoView of main.py (display chrome omitted). -/
structure AhoView where
  allaxiv : List PicAxiv
  axiv_idx : Int
  pic_rescale_mode : Int
deriving DecidableEq

/-- AhoView.offset_idx from main.py: the active index unchanged when the
set is empty or a singleton or the offset is zero, otherwise walked with
single steps of the offset sign and cyclic wrap. -/
def AhoView.offset_idx (w : AhoView) (offset : Int) : Int :=
  if w.allaxiv.isEmpty ∨ w.allaxiv.length = 1 ∨ offset = 0 then w.axiv_idx
  else
    iterN (stepK w.allaxiv.length (if 0 < offset then 1 else -1))
      offset.natAbs w.axiv_idx

/-- AhoView.offset_both from main.py: subscripts allaxiv at the wrapped
collection offset (which raises IndexError on an empty set) and delegates
to ptr of that collection. -/
def AhoView.offset_both (w : AhoView) (axivm picm : Int) : Except Unit (Option Pic) :=
  match pyGetElem w.allaxiv (w.offset_idx axivm) with
  | .error e => .error e
  | .ok a => a.ptr picm

/-- Apply a function to each list element together with its position,
the embedding of updating selected list positions in place. -/
def mapWithIdx (f : Nat → Pic → Pic) : Nat → List Pic → List Pic
  | _, [] => []
  | i, p :: ps => f i p :: mapWithIdx f (i + 1) ps

/-- Steps 1 and 2 of AhoView.updatemc from main.py: the total of all scores
over every collection is computed first; when it is positive, every entry
is updated by the expression score_set(30 * (score_set(0) / total) - 1),
where the inner call runs first and its return value is the stored clamped
score. -/
def AhoView.normalizeScores (w : AhoView) : AhoView :=
  let total := (w.allaxiv.map (fun a => (a.axiv.map Pic.score).sum)).sum
  if 0 < total then
    { w with allaxiv := w.allaxiv.map (fun a =>
        { a with axiv := a.axiv.map (fun p =>
            let r := p.score_set 0
            (r.1.score_set (30 * (r.2 / total) - 1)).1) }) }
  else w

/-- Resolved positions of the neighborhood entries collected by
AhoView.updatemc via offset_both with collection offset 0: absent entries
(empty collection) are skipped, and an IndexError propagates. Listing a
position once per reachable offset matches the identity-deduplicated set of
the source because distinct positions hold distinct objects. -/
def collectIdxs (a : PicAxiv) : List Int → Except Unit (List Nat)
  | [] => .ok []
  | m :: ms =>
    match a.ptrIdx m with
    | .error e => .error e
    | .ok none => collectIdxs a ms
    | .ok (some j) =>
      match collectIdxs a ms with
      | .error e => .error e
      | .ok js => .ok (j :: js)

/-- Steps 3 and 4 of AhoView.updatemc from main.py: each neighborhood entry
of the active collection (entry offsets 0, 1, -1, 10, -10, deduplicated by
identity) receives score_add(2) exactly once. -/
def AhoView.updatemcNbhd (w : AhoView) : Except Unit AhoView :=
  match pyIndex w.allaxiv.length (w.offset_idx 0) with
  | none => .error ()
  | some jA =>
    match w.allaxiv.get? jA with
    | none => .error ()
    | some a =>
      match collectIdxs a [0, 1, -1, 10, -10] with
      | .error e => .error e
      | .ok js =>
        let f : Nat → Pic → Pic := fun i p => if i ∈ js then (p.score_add 2).1 else p
        let a2 : PicAxiv := { a with axiv := mapWithIdx f 0 a.axiv }
        .ok { w with allaxiv := w.allaxiv.set jA a2 }

/-- AhoView.updatemc from main.py: the normalization pass followed by the
neighborhood score additions. -/
def AhoView.updatemc (w : AhoView) : Except Unit AhoView :=
  AhoView.updatemcNbhd (AhoView.normalizeScores w)

/-- AhoView.plot from main.py, stripped of the pure display calls: reads
the current entry of the active collection, probes its showability, and
when showable rescales it (sw, sh is the display label size) and runs
updatemc. The probed and rescaled entry is written back at its resolved
position, embedding the in-place mutation through the object reference. -/
def AhoView.plot (w : AhoView) (sw sh : Nat) : Except Unit AhoView :=
  if w.allaxiv.isEmpty then .ok w
  else
    match pyIndex w.allaxiv.length w.axiv_idx with
    | none => .error ()
    | some jA =>
      match w.allaxiv.get? jA with
      | none => .error ()
      | some a =>
        if a.axiv.isEmpty then .ok w
        else
          match pyIndex a.axiv.length a.pic_idx with
          | none => .error ()
          | some jP =>
            match a.axiv.get? jP with
            | none => .error ()
            | some p =>
              let r := p.showable
              if r.2 then
                let p2 := (r.1.scale_image sw sh w.pic_rescale_mode).1
                let a2 : PicAxiv := { a with axiv := a.axiv.set jP p2 }
                AhoView.updatemc { w with allaxiv := w.allaxiv.set jA a2 }
              else
                let a2 : PicAxiv := { a with axiv := a.axiv.set jP r.1 }
                .ok { w with allaxiv := w.allaxiv.set jA a2 }

/-- Python del of a list element: erase at the resolved position, or an
error for an IndexError. -/
def pyDelete {α : Type} (l : List α) (i : Int) : Except Unit (List α) :=
  match pyIndex l.length i with
  | none => .error ()
  | some j => .ok (l.eraseIdx j)

/-- AhoView.close_axiv from main.py: no effect on an empty set; with more
than one collection, deletes the one at the wrapped offset, resets the
active index to zero when it falls out of range, and re-renders via plot;
with exactly one collection, clears the set entirely (the display calls
toggle_plot and setWindowTitle are pure UI). Returns 0. -/
def AhoView.close_axiv (w : AhoView) (offset : Int) (sw sh : Nat) :
    Except Unit (AhoView × Int) :=
  if w.allaxiv.isEmpty then .ok (w, 0)
  else if 1 < w.allaxiv.length then
    match pyDelete w.allaxiv (w.offset_idx offset) with
    | .error e => .error e
    | .ok l =>
      let w1 : AhoView := { w with allaxiv := l }
      let w2 : AhoView :=
        if (l.length : Int) ≤ w1.axiv_idx then { w1 with axiv_idx := 0 } else w1
      match AhoView.plot w2 sw sh with
      | .error e => .error e
      | .ok w3 => .ok (w3, 0)
  else .ok ({ w with allaxiv := [] }, 0)

/-- AhoView.open_axiv from main.py on a non-empty directory path: the
PicAxiv constructor runs externally and its result enters as pic_folder;
when the new collection reports showable it is inserted at the front and
made active, then rendered via plot; otherwise it is discarded. Returns 0
(the dialog branch for an empty path is external UI). -/
def AhoView.open_axiv (w : AhoView) (pic_folder : PicAxiv) (sw sh : Nat) :
    Except Unit (AhoView × Int) :=
  let r := pic_folder.showable
  if r.2 then
    match AhoView.plot { w with allaxiv := r.1 :: w.allaxiv, axiv_idx := 0 } sw sh with
    | .error e => .error e
    | .ok w1 => .ok (w1, 0)
  else .ok (w, 0)

/-- The data-model invariant of one collection: a non-empty collection has
its cursor in range. -/
def PicAxivWF (a : PicAxiv) : Prop :=
  0 < a.axiv.length → 0 ≤ a.pic_idx ∧ a.pic_idx < (a.axiv.length : Int)

/-- The data-model invariant of the collection set: the active index is in
range (so the set is non-empty) and every collection is well formed. -/
def AhoViewWF (w : AhoView) : Prop :=
  (0 ≤ w.axiv_idx ∧ w.axiv_idx < (w.allaxiv.length : Int))
  ∧ ∀ a ∈ w.allaxiv, PicAxivWF a

/-- Claim C3 example entry: checked, showable, unloaded, with a valid
backing file. -/
def pEx : Pic :=
  { name := "p", fsExists := true, fsIsFile := true, fsRemoveOk := true,
    fileW := 4, fileH := 3, score := 0, is_checked := true, is_showable := true,
    is_loaded := false, origW := 0, origH := 0, scaledW := 0, scaledH := 0 }

/-- A fresh, never probed entry with a valid backing file, exactly the state
of a Pic just constructed on an existing decodable image. -/
def pFresh : Pic :=
  { name := "img", fsExists := true, fsIsFile := true, fsRemoveOk := true,
    fileW := 4, fileH := 3, score := 0, is_checked := false, is_showable := false,
    is_loaded := false, origW := 0, origH := 0, scaledW := 0, scaledH := 0 }

/-- Replace the filesystem environment fields of an entry, used to state
that an operation reads nothing from the filesystem. -/
def Pic.withFS (p : Pic) (e f g : Bool) (fw fh : Nat) : Pic :=
  { p with fsExists := e, fsIsFile := f, fsRemoveOk := g,
           fileW := fw, fileH := fh }

/-- A checked, showable, loaded 4 by 3 entry currently scaled to 100 by
75, for the claim C9 witness. -/
def pScale : Pic :=
  { pEx with is_loaded := true, origW := 4, origH := 3,
             scaledW := 100, scaledH := 75 }

/-- A concrete collection of n copies of pEx with cursor i. -/
def axivLen (n : Nat) (i : Int) : PicAxiv :=
  { name := "d", is_checked := true, is_showable := true,
    axiv := List.replicate n pEx, pic_idx := i }

/-- A concrete collection set of n copies of a two-entry collection with
active index i. -/
def viewLen (n : Nat) (i : Int) : AhoView :=
  { allaxiv := List.replicate n (axivLen 2 0), axiv_idx := i,
    pic_rescale_mode := 0 }

/-- Entry pEx carrying a given score, for the claim C1 evaluation. -/
def picWithScore (q : ℚ) : Pic := { pEx with score := q }

/-- The claim C1 collection: three entries with scores 10, 20 and 0. -/
def axivThree : PicAxiv :=
  { name := "dir", is_checked := true, is_showable := true,
    axiv := [picWithScore 10, picWithScore 20, picWithScore 0], pic_idx := 0 }

/-- The claim C1 state: one collection holding the three scored entries. -/
def viewThree : AhoView :=
  { allaxiv := [axivThree], axiv_idx := 0, pic_rescale_mode := 0 }

/-- The structural data of a collection that navigation depends on: name,
cursor and entry count. -/
def PicAxiv.shape (a : PicAxiv) : String × Int × Nat :=
  (a.name, a.pic_idx, a.axiv.length)

/-- The structural data of the collection set: active index and the shapes
of the collections. -/
def AhoView.shape (w : AhoView) : Int × List (String × Int × Nat) :=
  (w.axiv_idx, w.allaxiv.map PicAxiv.shape)

/-- The startup state: no collections open. -/
def viewEmpty : AhoView := { allaxiv := [], axiv_idx := 0, pic_rescale_mode := 0 }

/-- A collection that reports not showable (for example, a directory with
no supported images, already checked). -/
def axivBad : PicAxiv :=
  { name := "b", is_checked := true, is_showable := false, axiv := [], pic_idx := 0 }

/-!
Verification of the aho-view image viewer core: a shallow embedding of the
three source modules (pic.py, picaxiv.py, main.py) together with theorems
settling the specified properties of the predictive loading engine and the
cyclic navigation index arithmetic.

Modelling conventions:
- Python floats carrying image scores are embedded as rationals.
- The filesystem and decoder environment of one image file is embedded as
  immutable fields on the entry itself: fsExists and fsIsFile correspond to
  os.path.exists and os.path.isfile on the entry path, fsRemoveOk is whether
  os.remove would succeed, and fileW, fileH are the pixel dimensions that
  QPixmap(name) would produce, with a null pixmap (decode failure) encoded
  as both dimensions zero.
- QPixmap values are embedded by their dimensions only; the null QPixmap is
  the pair of zeros.
- Python list indexing, which can raise IndexError, is embedded with
  pyIndex and pyGetElem returning an Except value; an error value is the
  embedding of an uncaught IndexError.
- In-place mutation of an object held inside nested lists is embedded by
  writing the updated value back at the resolved list position, which is
  faithful because each list position holds a distinct Python object.
-/

/-! ## Index arithmetic: stepwise wrap equals euclidean mod -/

lemma stepFwd_eq_emod {n j : Int} (h0 : 0 ≤ j) (h1 : j < n) :
    stepFwd n j = (j + 1) % n := by
  unfold stepFwd
  split
  · have hj : j + 1 = n := by omega
    rw [hj, Int.emod_self]
  · exact (Int.emod_eq_of_lt (by omega) (by omega)).symm

lemma stepBack_eq_emod {n j : Int} (h0 : 0 ≤ j) (h1 : j < n) :
    stepBack n j = (j - 1) % n := by
  unfold stepBack
  split
  · have hj : j = 0 := by omega
    subst hj
    have h2 : ((0 : Int) - 1 + n * 1) % n = (0 - 1) % n :=
      Int.add_mul_emod_self_left (0 - 1) n 1
    have h3 : (0 : Int) - 1 + n * 1 = n - 1 := by ring
    rw [h3] at h2
    rw [← h2, Int.emod_eq_of_lt (by omega) (by omega)]
  · exact (Int.emod_eq_of_lt (by omega) (by omega)).symm

lemma emod_nonneg_lt {n j : Int} (hn : 0 < n) : 0 ≤ j % n ∧ j % n < n :=
  ⟨Int.emod_nonneg j (by omega), Int.emod_lt_of_pos j hn⟩

lemma iterN_fwd_emod {n : Int} (hn : 0 < n) :
    ∀ (m : Nat) (j : Int), 0 ≤ j → j < n →
      iterN (stepFwd n) m j = (j + m) % n := by
  intro m
  induction m with
  | zero =>
    intro j h0 h1
    simpa using (Int.emod_eq_of_lt h0 h1).symm
  | succ m ih =>
    intro j h0 h1
    show iterN (stepFwd n) m (stepFwd n j) = _
    rw [stepFwd_eq_emod h0 h1,
      ih _ (emod_nonneg_lt hn).1 (emod_nonneg_lt hn).2]
    conv_lhs => rw [Int.add_emod, Int.emod_emod_of_dvd _ dvd_rfl, ← Int.add_emod]
    congr 1
    push_cast
    ring

lemma iterN_back_emod {n : Int} (hn : 0 < n) :
    ∀ (m : Nat) (j : Int), 0 ≤ j → j < n →
      iterN (stepBack n) m j = (j - m) % n := by
  intro m
  induction m with
  | zero =>
    intro j h0 h1
    simpa using (Int.emod_eq_of_lt h0 h1).symm
  | succ m ih =>
    intro j h0 h1
    show iterN (stepBack n) m (stepBack n j) = _
    rw [stepBack_eq_emod h0 h1,
      ih _ (emod_nonneg_lt hn).1 (emod_nonneg_lt hn).2]
    conv_lhs => rw [Int.sub_emod, Int.emod_emod_of_dvd _ dvd_rfl, ← Int.sub_emod]
    congr 1
    push_cast
    ring

lemma stepK_one_eq_stepFwd {n j : Int} (h0 : 0 ≤ j) :
    stepK n 1 j = stepFwd n j := by
  unfold stepK stepFwd
  split
  · rfl
  · split
    · omega
    · rfl

lemma stepK_negone_eq_stepBack {n j : Int} (h1 : j < n) :
    stepK n (-1) j = stepBack n j := by
  unfold stepK stepBack
  have hj : j + -1 = j - 1 := by ring
  rw [hj]
  split
  · exfalso; omega
  · rfl

lemma iterN_congr_on {n : Int} (f g : Int → Int)
    (hfg : ∀ j, 0 ≤ j → j < n → f j = g j)
    (hg : ∀ j, 0 ≤ j → j < n → 0 ≤ g j ∧ g j < n) :
    ∀ (m : Nat) (j : Int), 0 ≤ j → j < n → iterN f m j = iterN g m j := by
  intro m
  induction m with
  | zero => intro j _ _; rfl
  | succ m ih =>
    intro j h0 h1
    show iterN f m (f j) = iterN g m (g j)
    rw [hfg j h0 h1]
    exact ih (g j) (hg j h0 h1).1 (hg j h0 h1).2

/-- The PicAxiv stepwise wrap computes euclidean mod whenever the cursor is
in range. -/
lemma picaxiv_offset_idx_emod (a : PicAxiv) (k : Int)
    (h0 : 0 ≤ a.pic_idx) (h1 : a.pic_idx < (a.axiv.length : Int)) :
    a.offset_idx k = (a.pic_idx + k) % (a.axiv.length : Int) := by
  have hn : (0 : Int) < (a.axiv.length : Int) := by omega
  have hne : a.axiv.isEmpty = false := by
    cases h : a.axiv with
    | nil => rw [h] at h1; simp at h1; omega
    | cons x xs => simp [List.isEmpty]
  unfold PicAxiv.offset_idx
  rw [hne]
  simp only [Bool.false_eq_true, if_false]
  split
  · rename_i hk
    rw [iterN_back_emod hn _ _ h0 h1]
    congr 1
    omega
  · split
    · rename_i hk
      rw [iterN_fwd_emod hn _ _ h0 h1]
      congr 1
      omega
    · rename_i hk1 hk2
      have hk : k = 0 := by omega
      rw [hk, add_zero]
      exact (Int.emod_eq_of_lt h0 h1).symm

lemma picaxiv_offset_idx_range (a : PicAxiv) (k : Int)
    (h0 : 0 ≤ a.pic_idx) (h1 : a.pic_idx < (a.axiv.length : Int)) :
    0 ≤ a.offset_idx k ∧ a.offset_idx k < (a.axiv.length : Int) := by
  rw [picaxiv_offset_idx_emod a k h0 h1]
  exact emod_nonneg_lt (by omega)

/-- The AhoView stepwise wrap computes euclidean mod whenever the active
index is in range. -/
lemma ahoview_offset_idx_emod (w : AhoView) (k : Int)
    (h0 : 0 ≤ w.axiv_idx) (h1 : w.axiv_idx < (w.allaxiv.length : Int)) :
    w.offset_idx k = (w.axiv_idx + k) % (w.allaxiv.length : Int) := by
  have hn : (0 : Int) < (w.allaxiv.length : Int) := by omega
  unfold AhoView.offset_idx
  split
  · rename_i hsp
    rcases hsp with hsp | hsp | hsp
    · exfalso
      cases h : w.allaxiv with
      | nil => rw [h] at h1; simp at h1; omega
      | cons x xs => rw [h] at hsp; simp [List.isEmpty] at hsp
    · have hi : w.axiv_idx = 0 := by omega
      rw [hsp, hi]
      simp [Int.emod_one]
    · rw [hsp, add_zero]
      exact (Int.emod_eq_of_lt h0 h1).symm
  · rename_i hsp
    push_neg at hsp
    split
    · rename_i hk
      rw [iterN_congr_on _ (stepFwd (w.allaxiv.length : Int))
          (fun j hj _ => stepK_one_eq_stepFwd hj)
          (fun j hj hjn => by
            rw [stepFwd_eq_emod hj hjn]; exact emod_nonneg_lt hn)
          _ _ h0 h1]
      rw [iterN_fwd_emod hn _ _ h0 h1]
      congr 1
      omega
    · rename_i hk
      rw [iterN_congr_on _ (stepBack (w.allaxiv.length : Int))
          (fun j _ hjn => stepK_negone_eq_stepBack hjn)
          (fun j hj hjn => by
            rw [stepBack_eq_emod hj hjn]; exact emod_nonneg_lt hn)
          _ _ h0 h1]
      rw [iterN_back_emod hn _ _ h0 h1]
      congr 1
      have : ¬ (0 : Int) < k := by assumption
      omega

lemma ahoview_offset_idx_range (w : AhoView) (k : Int)
    (h0 : 0 ≤ w.axiv_idx) (h1 : w.axiv_idx < (w.allaxiv.length : Int)) :
    0 ≤ w.offset_idx k ∧ w.offset_idx k < (w.allaxiv.length : Int) := by
  rw [ahoview_offset_idx_emod w k h0 h1]
  exact emod_nonneg_lt (by omega)

/-! ## Entry-level facts about load, unload and score_set -/

lemma unload_fields (p : Pic) :
    (p.unload).1.score = p.score ∧ (p.unload).1.is_loaded = false
      ∧ (p.unload).1.is_checked = p.is_checked
      ∧ (p.unload).1.is_showable = p.is_showable ∧ (p.unload).2 = true := by
  unfold Pic.unload
  split <;> simp_all

lemma load_score (p : Pic) : (p.load).1.score = p.score := by
  simp only [Pic.load]
  split_ifs <;> rfl

lemma load_keeps_loaded (p : Pic) (h : p.is_loaded = true) :
    p.load = (p, true) := by
  unfold Pic.load
  rw [h]
  simp

lemma load_success (p : Pic) (hl : p.is_loaded = false)
    (hns : p.is_checked = false ∨ p.is_showable = true)
    (he : p.fsExists = true) (hf : p.fsIsFile = true)
    (hd : pixNull p.fileW p.fileH = false) :
    (p.load).1.is_checked = true ∧ (p.load).1.is_showable = true
      ∧ (p.load).1.is_loaded = true ∧ (p.load).2 = true := by
  unfold Pic.load
  rw [hl]
  simp only [Bool.false_eq_true, if_false]
  split_ifs with h1 h2 h3 <;> simp_all

/-- Claim C2, counterexample: on the freshly constructed entry pFresh whose
file exists and decodes, a single public load call (the same state arises
from probe_showable) yields a state with score zero and loaded true, so the
invariant score equal zero implies not loaded does not hold for all states
reachable through the public operations. -/
theorem load_violates_zero_score_eviction :
    (pFresh.load).1.score = 0 ∧ (pFresh.load).1.is_loaded = true := by
  constructor <;> rfl

/-- Claim C2, amended: the zero-score eviction invariant is enforced by the
score-driven operations: after any score_set or score_add a zero score
implies not loaded, and unload and delete_backing_file always leave the
entry unloaded. (load, and probe_showable and render_for_display which call
it, can load an entry whose score is zero.) -/
theorem score_driven_ops_enforce_zero_score_eviction (p : Pic) (n d : ℚ) :
    ((p.score_set n).1.score = 0 → (p.score_set n).1.is_loaded = false)
    ∧ ((p.score_add d).1.score = 0 → (p.score_add d).1.is_loaded = false)
    ∧ (p.unload).1.is_loaded = false
    ∧ (p.delete_file).1.is_loaded = false := by
  have key : ∀ (q : Pic) (m : ℚ),
      (q.score_set m).1.score = 0 → (q.score_set m).1.is_loaded = false := by
    intro q m
    simp only [Pic.score_set]
    split_ifs with h1 h2
    · intro _
      exact (unload_fields _).2.1
    · intro hsc
      rw [load_score] at hsc
      exfalso
      have hm : m = 0 := hsc
      have h2m : (1 : ℚ) ≤ m := h2
      rw [hm] at h2m
      norm_num at h2m
    · intro hsc
      exfalso
      have hm : m = 0 := hsc
      have h1m : ¬ m ≤ 0 := h1
      rw [hm] at h1m
      norm_num at h1m
  refine ⟨key p n, key p (p.score + d), (unload_fields p).2.1, ?_⟩
  simp only [Pic.delete_file]
  split_ifs <;> simp_all [Pic.unload]

/-- Claim C3: score_set stores and returns the clamped score; a
non-positive value clamps to zero and unloads; a value at least one on a
checked showable entry whose file exists and decodes (showable means
existing and decodable) loads the entry; a value strictly between zero and
one changes only the stored score. -/
theorem score_set_clamp_and_triggers (p : Pic) (v : ℚ) :
    ((p.score_set v).2 = (p.score_set v).1.score
      ∧ (p.score_set v).1.score = if v ≤ 0 then 0 else v)
    ∧ (v ≤ 0 → (p.score_set v).1.score = 0 ∧ (p.score_set v).1.is_loaded = false)
    ∧ (1 ≤ v → p.is_checked = true → p.is_showable = true → p.fsExists = true →
        p.fsIsFile = true → pixNull p.fileW p.fileH = false →
        (p.score_set v).1.is_loaded = true ∧ (p.score_set v).1.score = v)
    ∧ (0 < v → v < 1 → p.score_set v = ({ p with score := v }, v)) := by
  refine ⟨⟨?_, ?_⟩, ?_, ?_, ?_⟩
  · simp only [Pic.score_set]
    split_ifs <;> rfl
  · simp only [Pic.score_set]
    split_ifs with h1 h2
    · exact (unload_fields _).1
    · rw [load_score]
    · rfl
  · intro hv
    simp only [Pic.score_set]
    split_ifs
    exact ⟨(unload_fields _).1, (unload_fields _).2.1⟩
  · intro hv hc hs he hf hd
    simp only [Pic.score_set]
    split_ifs with h1
    · exfalso
      linarith
    · constructor
      · by_cases hl : ({ p with score := v } : Pic).is_loaded = true
        · rw [load_keeps_loaded _ hl]
          exact hl
        · exact (load_success { p with score := v } (by simpa using hl)
            (Or.inr hs) he hf hd).2.2.1
      · rw [load_score]
  · intro hv1 hv2
    simp only [Pic.score_set]
    split_ifs with h1 h2
    · exfalso
      linarith
    · exfalso
      linarith
    · rfl

/-- Claim C3 witness at concrete inputs: a non-positive value, a value at
least one, and a value strictly inside the unit interval, each on pEx. -/
theorem score_set_clamp_and_triggers_witness :
    ((pEx.score_set (-5)).1.score = 0 ∧ (pEx.score_set (-5)).1.is_loaded = false)
    ∧ ((pEx.score_set 2).1.is_loaded = true ∧ (pEx.score_set 2).1.score = 2)
    ∧ (pEx.score_set (1/2) = ({ pEx with score := 1/2 }, 1/2)) :=
  ⟨(score_set_clamp_and_triggers pEx (-5)).2.1 (by norm_num),
   (score_set_clamp_and_triggers pEx 2).2.2.1 (by norm_num) rfl rfl rfl rfl (by decide),
   (score_set_clamp_and_triggers pEx (1/2)).2.2.2 (by norm_num) (by norm_num)⟩

/-- Claim C4: load is a total boolean-returning operation (the embedding
returns in every case, mirroring the exception-free source): it returns
true at once when already loaded; when checked and not showable it fails
with no filesystem access (the result is the same for every valuation of
the filesystem fields); otherwise it decodes, with success setting checked,
showable and loaded and returning true, and any decode failure (missing
file, not a regular file, null decode) setting checked true, showable
false, loaded false and returning false. -/
theorem load_total_case_analysis (p : Pic) :
    (p.is_loaded = true → p.load = (p, true))
    ∧ (p.is_loaded = false → p.is_checked = true → p.is_showable = false →
        ∀ e f g fw fh, (p.withFS e f g fw fh).load = (p.withFS e f g fw fh, false))
    ∧ (p.is_loaded = false → (p.is_checked = false ∨ p.is_showable = true) →
        ((p.fsExists && p.fsIsFile) = true → pixNull p.fileW p.fileH = false →
          (p.load).1.is_checked = true ∧ (p.load).1.is_showable = true
            ∧ (p.load).1.is_loaded = true ∧ (p.load).2 = true)
        ∧ (((p.fsExists && p.fsIsFile) = false ∨ pixNull p.fileW p.fileH = true) →
          (p.load).1.is_checked = true ∧ (p.load).1.is_showable = false
            ∧ (p.load).1.is_loaded = false ∧ (p.load).2 = false)) := by
  refine ⟨load_keeps_loaded p, ?_, ?_⟩
  · intro hl hc hs e f g fw fh
    have hcond : (p.is_checked && !p.is_showable) = true := by rw [hc, hs]; rfl
    simp only [Pic.load, Pic.withFS]
    split_ifs with h1
    · exfalso
      rw [hl] at h1
      exact Bool.false_ne_true h1
    · rfl
  · intro hl hns
    constructor
    · intro hfs hd
      have hb := Bool.and_eq_true_iff.mp hfs
      exact load_success p hl hns hb.1 hb.2 hd
    · intro hfail
      simp only [Pic.load]
      rw [hl]
      simp only [Bool.false_eq_true, if_false]
      split_ifs with h1 h2 <;> first
        | (exfalso
           rcases hns with hns | hns
           · rw [hns] at h1; simp at h1
           · rw [Bool.and_eq_true_iff.mp h1 |>.2] at hns; simp at hns)
        | (rcases hfail with hfail | hfail
           · simp_all
           · simp_all)

/-- Claim C4 witness: the three cases at concrete entries: an already
loaded entry, a checked unshowable entry under two filesystem valuations,
and a fresh entry that decodes successfully and one whose file is gone. -/
theorem load_total_case_analysis_witness :
    ({ pEx with is_loaded := true } : Pic).load = ({ pEx with is_loaded := true }, true)
    ∧ ((({ pEx with is_showable := false } : Pic).withFS false false true 0 0).load
        = (({ pEx with is_showable := false } : Pic).withFS false false true 0 0, false))
    ∧ ((pFresh.load).1.is_checked = true ∧ (pFresh.load).1.is_showable = true
        ∧ (pFresh.load).1.is_loaded = true ∧ (pFresh.load).2 = true)
    ∧ ((({ pFresh with fsExists := false } : Pic).load).1.is_checked = true
        ∧ (({ pFresh with fsExists := false } : Pic).load).1.is_showable = false
        ∧ (({ pFresh with fsExists := false } : Pic).load).1.is_loaded = false
        ∧ (({ pFresh with fsExists := false } : Pic).load).2 = false) :=
  ⟨(load_total_case_analysis { pEx with is_loaded := true }).1 rfl,
   (load_total_case_analysis { pEx with is_showable := false }).2.1 rfl rfl rfl
     false false true 0 0,
   ((load_total_case_analysis pFresh).2.2 rfl (Or.inl rfl)).1 rfl rfl,
   ((load_total_case_analysis { pFresh with fsExists := false }).2.2 rfl
     (Or.inl rfl)).2 (Or.inl rfl)⟩

/-- Claim C9: in rescale mode 0 the no-recompute test is keyed on the
constraining axis. On a checked, showable, loaded entry (so the lazy probe
and implicit load change nothing) with positive target and source widths
(the real divisions of the source are then defined): when the target aspect
ratio (height over width) is at least the source aspect ratio, a call whose
target width equals the current scaled width returns did_change false with
the entry unchanged, whatever the target height; otherwise the same holds
comparing heights. -/
theorem scale_image_mode0_constraining_axis (p : Pic) (sw sh : Nat)
    (hc : p.is_checked = true) (hs : p.is_showable = true)
    (hl : p.is_loaded = true) (hsw : 0 < sw) (how : 0 < p.origW) :
    ((p.origH : ℚ) / (p.origW : ℚ) ≤ (sh : ℚ) / (sw : ℚ) → sw = p.scaledW →
      p.scale_image sw sh 0 = (p, false))
    ∧ ((sh : ℚ) / (sw : ℚ) < (p.origH : ℚ) / (p.origW : ℚ) → sh = p.scaledH →
      p.scale_image sw sh 0 = (p, false)) := by
  have hshow : p.showable = (p, true) := by
    simp only [Pic.showable]
    rw [hc, hs]
    simp
  constructor
  · intro hcond heq
    simp only [Pic.scale_image, hshow, hl]
    simp only [Bool.not_true, Bool.false_eq_true, if_false, if_true]
    have hkey : (if ((sh : ℚ) / (sw : ℚ) ≥ (p.origH : ℚ) / (p.origW : ℚ))
        then sw = p.scaledW else sh = p.scaledH) := by
      rw [if_pos hcond]
      exact heq
    rw [if_pos hkey]
  · intro hcond heq
    simp only [Pic.scale_image, hshow, hl]
    simp only [Bool.not_true, Bool.false_eq_true, if_false, if_true]
    have hkey : (if ((sh : ℚ) / (sw : ℚ) ≥ (p.origH : ℚ) / (p.origW : ℚ))
        then sw = p.scaledW else sh = p.scaledH) := by
      rw [if_neg (not_le.mpr hcond)]
      exact heq
    rw [if_pos hkey]

/-- Claim C9 witness: a 4 by 3 source scaled into a 100 wide label. With
target 100 by 200 (aspect 2, above 3/4) and scaled width already 100 the
call is a no-op although the height differs from 75; with target 200 by 75
(aspect below 3/4) and scaled height already 75 the call is a no-op. -/
theorem scale_image_mode0_constraining_axis_witness :
    pScale.scale_image 100 200 0 = (pScale, false)
    ∧ pScale.scale_image 200 75 0 = (pScale, false) :=
  ⟨(scale_image_mode0_constraining_axis pScale 100 200 rfl rfl rfl
      (by norm_num) (by norm_num [pScale, pEx])).1 (by norm_num [pScale, pEx]) rfl,
   (scale_image_mode0_constraining_axis pScale 200 75 rfl rfl rfl
      (by norm_num) (by norm_num [pScale, pEx])).2 (by norm_num [pScale, pEx]) rfl⟩

/-- Claim C5: on any non-empty collection with its cursor in range,
offset_idx by k followed by offset_idx by the negated k from the resulting
cursor returns the original cursor, for every integer offset including
magnitudes at or above the collection length. -/
theorem offset_idx_cyclic_round_trip (a : PicAxiv) (k : Int)
    (h0 : 0 ≤ a.pic_idx) (h1 : a.pic_idx < (a.axiv.length : Int)) :
    PicAxiv.offset_idx { a with pic_idx := a.offset_idx k } (-k) = a.pic_idx := by
  have hr := picaxiv_offset_idx_range a k h0 h1
  have h2 := picaxiv_offset_idx_emod { a with pic_idx := a.offset_idx k } (-k)
    (by simpa using hr.1) (by simpa using hr.2)
  rw [h2]
  show (a.offset_idx k + -k) % (a.axiv.length : Int) = a.pic_idx
  rw [picaxiv_offset_idx_emod a k h0 h1]
  conv_lhs => rw [Int.add_emod, Int.emod_emod_of_dvd _ dvd_rfl, ← Int.add_emod]
  have he : a.pic_idx + k + -k = a.pic_idx := by ring
  rw [he, Int.emod_eq_of_lt h0 h1]

/-- Claim C5 witness: round trips at the wrap points, lengths 1, 2 and 3,
with offset magnitudes at or above the length. -/
theorem offset_idx_cyclic_round_trip_witness :
    PicAxiv.offset_idx { axivLen 1 0 with pic_idx := (axivLen 1 0).offset_idx 5 } (-5) = 0
    ∧ PicAxiv.offset_idx { axivLen 2 1 with pic_idx := (axivLen 2 1).offset_idx 5 } (-5) = 1
    ∧ PicAxiv.offset_idx { axivLen 3 2 with pic_idx := (axivLen 3 2).offset_idx (-7) } 7 = 2 :=
  ⟨offset_idx_cyclic_round_trip (axivLen 1 0) 5 (by decide) (by decide),
   offset_idx_cyclic_round_trip (axivLen 2 1) 5 (by decide) (by decide),
   offset_idx_cyclic_round_trip (axivLen 3 2) (-7) (by decide) (by decide)⟩

/-- Claim C10: for a non-empty sequence with cursor in range, the stepwise
wrap of PicAxiv.offset_idx computes the euclidean remainder of cursor plus
offset by the length, the stepwise wrap of AhoView.offset_idx computes the
same on its own sequence, and on equal lengths and equal cursors the two
functions agree. -/
theorem offset_idx_emod_refinement (a : PicAxiv) (w : AhoView) (k : Int)
    (h0 : 0 ≤ a.pic_idx) (h1 : a.pic_idx < (a.axiv.length : Int))
    (hlen : a.axiv.length = w.allaxiv.length) (hidx : w.axiv_idx = a.pic_idx) :
    a.offset_idx k = (a.pic_idx + k) % (a.axiv.length : Int)
    ∧ w.offset_idx k = (w.axiv_idx + k) % (w.allaxiv.length : Int)
    ∧ a.offset_idx k = w.offset_idx k := by
  have ha := picaxiv_offset_idx_emod a k h0 h1
  have hw := ahoview_offset_idx_emod w k (by omega) (by omega)
  refine ⟨ha, hw, ?_⟩
  rw [ha, hw, hidx, hlen]

/-- Claim C10 witness: a three-entry collection and a three-collection set,
cursor 1, offset -4. -/
theorem offset_idx_emod_refinement_witness :
    (axivLen 3 1).offset_idx (-4) = (1 + (-4)) % 3
    ∧ (viewLen 3 1).offset_idx (-4) = (1 + (-4)) % 3
    ∧ (axivLen 3 1).offset_idx (-4) = (viewLen 3 1).offset_idx (-4) :=
  (offset_idx_emod_refinement (axivLen 3 1) (viewLen 3 1) (-4)
    (by decide) (by decide) (by decide) (by decide))

/-- Claim C1: on three entries with scores 10, 20, 0 (total 30, positive)
the normalization pass of updatemc leaves scores 0, 0, 0 — not the 9, 19, 0
of the claim. The inner score_set(0) call returns the new clamped score 0
rather than the old score, so every entry is re-derived as
30 * (0 / total) - 1 = -1, which clamps to 0 and unloads. -/
theorem updatemc_normalization_zeroes_all_scores :
    ((AhoView.normalizeScores viewThree).allaxiv.map
        (fun a => a.axiv.map Pic.score))
      = [[0, 0, 0]]
    ∧ ([[(0 : ℚ), 0, 0]] : List (List ℚ)) ≠ [[9, 19, 0]] := by
  constructor
  · norm_num [AhoView.normalizeScores, viewThree, axivThree, picWithScore, pEx,
      Pic.score_set, Pic.unload, Pic.load, pixNull]
  · norm_num

/-- Claim C6, counterexample: on the empty collection set (the startup
state) offset_both raises an IndexError (allaxiv with subscript 0 on the
empty list) instead of returning the absent value, already at offsets
(0, 0). -/
theorem offset_both_errors_on_empty_set :
    AhoView.offset_both { allaxiv := [], axiv_idx := 0, pic_rescale_mode := 0 } 0 0
      = .error () := rfl

/-! ## Shape preservation machinery for plot and updatemc -/

lemma list_isEmpty_false {α : Type} (l : List α) :
    l.isEmpty = false ↔ 0 < l.length := by
  cases l <;> simp [List.isEmpty]

lemma get_some_of_lt {α : Type} (l : List α) (j : Nat) (h : j < l.length) :
    ∃ a, l.get? j = some a := by
  rw [List.get?_eq_get h]
  exact ⟨_, rfl⟩

lemma pyIndex_of_range {len : Nat} {i : Int} (h0 : 0 ≤ i) (h1 : i < (len : Int)) :
    pyIndex len i = some i.toNat := by
  simp only [pyIndex]
  rw [if_neg (by omega : ¬ i < 0), if_pos ⟨h0, h1⟩]

lemma pyGetElem_ok_of_range {α : Type} (l : List α) (i : Int)
    (h0 : 0 ≤ i) (h1 : i < (l.length : Int)) :
    ∃ a, pyGetElem l i = .ok a ∧ l.get? i.toNat = some a := by
  obtain ⟨a, ha⟩ := get_some_of_lt l i.toNat (by omega)
  refine ⟨a, ?_, ha⟩
  simp only [pyGetElem]
  rw [pyIndex_of_range h0 h1]
  have ha2 : l[i.toNat]? = some a := by
    rw [← List.get?_eq_getElem?]
    exact ha
  simp [ha2]

lemma map_set_eq {α β : Type} (f : α → β) :
    ∀ (l : List α) (j : Nat) (b : α), (∀ a, l.get? j = some a → f b = f a) →
      (l.set j b).map f = l.map f := by
  intro l
  induction l with
  | nil => intro j b _; simp
  | cons x xs ih =>
    intro j b h
    cases j with
    | zero =>
      simp only [List.set, List.map]
      rw [h x rfl]
    | succ j =>
      simp only [List.set, List.map]
      rw [ih j b (fun a ha => h a (by simpa using ha))]

lemma picaxivWF_of_shape {a b : PicAxiv} (h : a.shape = b.shape)
    (hb : PicAxivWF b) : PicAxivWF a := by
  have h2 : a.pic_idx = b.pic_idx := congrArg (fun s => s.2.1) h
  have h3 : a.axiv.length = b.axiv.length := congrArg (fun s => s.2.2) h
  intro hl
  rw [h3] at hl
  have := hb hl
  omega

lemma wf_members_of_shape {l l2 : List PicAxiv}
    (h : l.map PicAxiv.shape = l2.map PicAxiv.shape)
    (h2 : ∀ a ∈ l2, PicAxivWF a) : ∀ a ∈ l, PicAxivWF a := by
  intro a ha
  have hm : a.shape ∈ l2.map PicAxiv.shape := by
    rw [← h]
    exact List.mem_map_of_mem _ ha
  rcases List.mem_map.mp hm with ⟨b, hb, he⟩
  exact picaxivWF_of_shape he.symm (h2 b hb)

lemma shape_lists_length {l l2 : List PicAxiv}
    (h : l.map PicAxiv.shape = l2.map PicAxiv.shape) : l.length = l2.length := by
  have := congrArg List.length h
  simpa using this

lemma map_name_of_shape {l l2 : List PicAxiv}
    (h : l.map PicAxiv.shape = l2.map PicAxiv.shape) :
    l.map PicAxiv.name = l2.map PicAxiv.name := by
  have h2 := congrArg (List.map (fun s : String × Int × Nat => s.1)) h
  simpa [List.map_map, Function.comp_def, PicAxiv.shape] using h2

lemma ahoviewWF_of_shape {v u : AhoView} (h : v.shape = u.shape)
    (hu : AhoViewWF u) : AhoViewWF v := by
  have h1 : v.axiv_idx = u.axiv_idx := congrArg Prod.fst h
  have h2 : v.allaxiv.map PicAxiv.shape = u.allaxiv.map PicAxiv.shape :=
    congrArg Prod.snd h
  have h3 : v.allaxiv.length = u.allaxiv.length := shape_lists_length h2
  exact ⟨⟨by rw [h1]; exact hu.1.1, by rw [h1, h3]; exact hu.1.2⟩,
    wf_members_of_shape h2 hu.2⟩

lemma mapWithIdx_length (f : Nat → Pic → Pic) : ∀ (i : Nat) (l : List Pic),
    (mapWithIdx f i l).length = l.length := by
  intro i l
  induction l generalizing i with
  | nil => rfl
  | cons p ps ih => simp [mapWithIdx, ih]

lemma scanShowable_spec : ∀ l : List Pic,
    (scanShowable l).1.length = l.length
    ∧ (∀ i, (scanShowable l).2 = some i → i < l.length) := by
  intro l
  induction l with
  | nil =>
    refine ⟨rfl, ?_⟩
    intro i h
    simp [scanShowable] at h
  | cons p ps ih =>
    simp only [scanShowable]
    rcases hps : scanShowable ps with ⟨ps1, ro⟩
    rw [hps] at ih
    by_cases hb : (p.showable).2 = true
    · rw [if_pos hb]
      refine ⟨by simp, ?_⟩
      intro i hi
      simp at hi
      simp only [List.length_cons]
      omega
    · rw [if_neg hb]
      cases ro with
      | none =>
        refine ⟨by simpa using ih.1, ?_⟩
        intro i hi
        simp at hi
      | some j =>
        refine ⟨by simpa using ih.1, ?_⟩
        intro i hi
        simp at hi
        have hj := ih.2 j rfl
        simp only [List.length_cons]
        omega

lemma showable_shape_wf (a : PicAxiv) :
    (a.showable).1.name = a.name
    ∧ (a.showable).1.axiv.length = a.axiv.length
    ∧ (PicAxivWF a → PicAxivWF (a.showable).1) := by
  have hspec := scanShowable_spec a.axiv
  simp only [PicAxiv.showable]
  split
  · exact ⟨rfl, rfl, id⟩
  · rcases hs : scanShowable a.axiv with ⟨l, ro⟩
    rw [hs] at hspec
    cases ro with
    | none =>
      refine ⟨rfl, by simpa using hspec.1, ?_⟩
      intro hwf hl
      have hl2 : 0 < a.axiv.length := by
        have := hspec.1
        simp at this hl ⊢
        omega
      have := hwf hl2
      have hlen : l.length = a.axiv.length := by simpa using hspec.1
      constructor
      · exact this.1
      · simp only []
        rw [hlen]
        exact this.2
    | some i =>
      refine ⟨rfl, by simpa using hspec.1, ?_⟩
      intro _ _
      have hi := hspec.2 i rfl
      have hlen : l.length = a.axiv.length := by simpa using hspec.1
      constructor
      · simp
      · simp only []
        rw [hlen]
        exact_mod_cast hi

lemma normalizeScores_shape (w : AhoView) :
    (w.normalizeScores).shape = w.shape := by
  simp only [AhoView.normalizeScores]
  split
  · simp [AhoView.shape, PicAxiv.shape, List.map_map, Function.comp_def,
      List.length_map]
  · rfl

lemma normalizeScores_unfold (w : AhoView) :
    w.updatemc = (w.normalizeScores).updatemcNbhd := rfl

lemma ptrIdx_of_empty (a : PicAxiv) (h : a.axiv.isEmpty = true) (m : Int) :
    a.ptrIdx m = .ok none := by
  simp only [PicAxiv.ptrIdx]
  rw [if_pos h]

lemma ptrIdx_of_wf (a : PicAxiv) (h : a.axiv.isEmpty = false)
    (hwf : PicAxivWF a) (m : Int) :
    a.ptrIdx m = .ok (some (a.offset_idx m).toNat) := by
  have hl : 0 < a.axiv.length := (list_isEmpty_false _).mp h
  have hr := picaxiv_offset_idx_range a m (hwf hl).1 (hwf hl).2
  simp only [PicAxiv.ptrIdx]
  rw [if_neg (by simp [h]), pyIndex_of_range hr.1 hr.2]

lemma collectIdxs_ok (a : PicAxiv) (hwf : PicAxivWF a) :
    ∀ ms : List Int, ∃ js, collectIdxs a ms = .ok js := by
  intro ms
  induction ms with
  | nil => exact ⟨[], rfl⟩
  | cons m ms ih =>
    rcases ih with ⟨js, hjs⟩
    by_cases he : a.axiv.isEmpty = true
    · refine ⟨js, ?_⟩
      simp only [collectIdxs]
      rw [ptrIdx_of_empty a he m, hjs]
    · refine ⟨(a.offset_idx m).toNat :: js, ?_⟩
      simp only [collectIdxs]
      rw [ptrIdx_of_wf a (by simpa using he) hwf m, hjs]

lemma updatemcNbhd_ok (w : AhoView) (hwf : AhoViewWF w) :
    ∃ w2, w.updatemcNbhd = .ok w2 ∧ w2.shape = w.shape := by
  obtain ⟨⟨h0, h1⟩, hmem⟩ := hwf
  have hoff : w.offset_idx 0 = w.axiv_idx := by
    simp [AhoView.offset_idx]
  obtain ⟨a, hget⟩ := get_some_of_lt w.allaxiv w.axiv_idx.toNat (by omega)
  have hawf : PicAxivWF a := hmem a (List.get?_mem hget)
  obtain ⟨js, hjs⟩ := collectIdxs_ok a hawf [0, 1, -1, 10, -10]
  refine ⟨⟨w.allaxiv.set w.axiv_idx.toNat
      ⟨a.name, a.is_checked, a.is_showable,
       mapWithIdx (fun i p => if i ∈ js then (p.score_add 2).1 else p) 0 a.axiv,
       a.pic_idx⟩, w.axiv_idx, w.pic_rescale_mode⟩, ?_, ?_⟩
  · simp only [AhoView.updatemcNbhd]
    rw [hoff, pyIndex_of_range h0 h1]
    simp only [hget, hjs]
  · simp only [AhoView.shape]
    refine congrArg (Prod.mk w.axiv_idx) ?_
    apply map_set_eq
    intro b hb
    rw [hget] at hb
    injection hb with hb
    rw [← hb]
    simp [PicAxiv.shape, mapWithIdx_length]

lemma updatemc_ok (w : AhoView) (hwf : AhoViewWF w) :
    ∃ w2, w.updatemc = .ok w2 ∧ w2.shape = w.shape := by
  have hsh := normalizeScores_shape w
  obtain ⟨w2, hn, hs2⟩ :=
    updatemcNbhd_ok w.normalizeScores (ahoviewWF_of_shape hsh hwf)
  exact ⟨w2, hn, by rw [hs2, hsh]⟩

lemma setPic_shape (w : AhoView) (a : PicAxiv) (p2 : Pic) (jP : Nat)
    (hget : w.allaxiv.get? w.axiv_idx.toNat = some a) :
    (AhoView.mk (w.allaxiv.set w.axiv_idx.toNat { a with axiv := a.axiv.set jP p2 })
      w.axiv_idx w.pic_rescale_mode).shape = w.shape := by
  simp only [AhoView.shape]
  refine congrArg (Prod.mk w.axiv_idx) ?_
  apply map_set_eq
  intro b hb
  rw [hget] at hb
  injection hb with hb
  rw [← hb]
  simp [PicAxiv.shape, List.length_set]

lemma plot_ok (w : AhoView) (sw sh : Nat) (hwf : AhoViewWF w) :
    ∃ w2, w.plot sw sh = .ok w2 ∧ w2.shape = w.shape := by
  obtain ⟨⟨h0, h1⟩, hmem⟩ := hwf
  have hne : w.allaxiv.isEmpty = false := by
    rw [list_isEmpty_false]
    omega
  obtain ⟨a, hget⟩ := get_some_of_lt w.allaxiv w.axiv_idx.toNat (by omega)
  have hawf : PicAxivWF a := hmem a (List.get?_mem hget)
  by_cases hae : a.axiv.isEmpty = true
  · refine ⟨w, ?_, rfl⟩
    simp only [AhoView.plot]
    rw [hne]
    simp only [Bool.false_eq_true, if_false]
    rw [pyIndex_of_range h0 h1]
    simp only [hget]
    rw [hae]
    simp
  · have hl : 0 < a.axiv.length := by
      rw [← list_isEmpty_false]
      simpa using hae
    have hpr := hawf hl
    obtain ⟨p, hgetP⟩ := get_some_of_lt a.axiv a.pic_idx.toNat (by omega)
    have haef : a.axiv.isEmpty = false := by simpa using hae
    by_cases hb : (p.showable).2 = true
    · have hsh2 := setPic_shape w a
        ((p.showable).1.scale_image sw sh w.pic_rescale_mode).1 a.pic_idx.toNat hget
      have hwf2 := ahoviewWF_of_shape hsh2 ⟨⟨h0, h1⟩, hmem⟩
      obtain ⟨w3, hu, hs3⟩ := updatemc_ok _ hwf2
      refine ⟨w3, ?_, by rw [hs3, hsh2]⟩
      simp only [AhoView.plot]
      rw [hne]
      simp only [Bool.false_eq_true, if_false]
      rw [pyIndex_of_range h0 h1]
      simp only [hget]
      rw [haef]
      simp only [Bool.false_eq_true, if_false]
      rw [pyIndex_of_range hpr.1 hpr.2]
      simp only [hgetP]
      rw [if_pos hb]
      exact hu
    · refine ⟨_, ?_, setPic_shape w a (p.showable).1 a.pic_idx.toNat hget⟩
      simp only [AhoView.plot]
      rw [hne]
      simp only [Bool.false_eq_true, if_false]
      rw [pyIndex_of_range h0 h1]
      simp only [hget]
      rw [haef]
      simp only [Bool.false_eq_true, if_false]
      rw [pyIndex_of_range hpr.1 hpr.2]
      simp only [hgetP]
      rw [if_neg (by simpa using hb)]

/-- Claim C6, amended: entry_at (offset_both) never raises on a well formed
non-empty collection set (active index in range, every non-empty collection
with its cursor in range): it returns an entry or the absent value; on the
empty set it raises an IndexError instead of returning the absent value. -/
theorem offset_both_total_on_wellformed_states (w : AhoView) (am pm : Int)
    (hwf : AhoViewWF w) :
    ∃ r, w.offset_both am pm = .ok r := by
  obtain ⟨⟨h0, h1⟩, hmem⟩ := hwf
  have hr := ahoview_offset_idx_range w am h0 h1
  obtain ⟨a, hok, hget⟩ :=
    pyGetElem_ok_of_range w.allaxiv (w.offset_idx am) hr.1 hr.2
  have hawf : PicAxivWF a := hmem a (List.get?_mem hget)
  by_cases hae : a.axiv.isEmpty = true
  · refine ⟨none, ?_⟩
    simp only [AhoView.offset_both]
    rw [hok]
    simp only [PicAxiv.ptr]
    rw [if_pos hae]
  · have hl : 0 < a.axiv.length := by
      rw [← list_isEmpty_false]
      simpa using hae
    have hpr := picaxiv_offset_idx_range a pm (hawf hl).1 (hawf hl).2
    obtain ⟨p, hokP, hgetP⟩ :=
      pyGetElem_ok_of_range a.axiv (a.offset_idx pm) hpr.1 hpr.2
    refine ⟨some p, ?_⟩
    simp only [AhoView.offset_both]
    rw [hok]
    simp only [PicAxiv.ptr]
    rw [if_neg (by simp [hae]), hokP]

/-- Claim C6 witness: a well formed two-collection set, offsets 3 and -2. -/
theorem offset_both_total_on_wellformed_states_witness :
    ∃ r, (viewLen 2 1).offset_both 3 (-2) = .ok r :=
  offset_both_total_on_wellformed_states (viewLen 2 1) 3 (-2)
    ⟨⟨by decide, by decide⟩, by
      intro a ha
      have := List.eq_of_mem_replicate ha
      subst this
      intro hl
      exact ⟨by decide, by decide⟩⟩

/-- Claim C7: on a well formed set holding exactly one collection,
close_axiv empties the collections sequence entirely; on a set holding more
than one, it removes the collection at the computed offset and resets the
active index to zero exactly when the old index falls out of range, so the
active-index invariant holds afterwards (the set stays non-empty). The
collections are compared by name through the subsequent re-render, which
rescores entries but never changes the sequence of collections. -/
theorem close_axiv_behavior (w : AhoView) (offset : Int) (sw sh : Nat)
    (hwf : AhoViewWF w) :
    (w.allaxiv.length = 1 →
      w.close_axiv offset sw sh = .ok ({ w with allaxiv := [] }, 0))
    ∧ (1 < w.allaxiv.length →
      ∃ w3, w.close_axiv offset sw sh = .ok (w3, 0)
        ∧ w3.allaxiv.length = w.allaxiv.length - 1
        ∧ w3.allaxiv.map PicAxiv.name
            = (w.allaxiv.eraseIdx (w.offset_idx offset).toNat).map PicAxiv.name
        ∧ w3.axiv_idx
            = (if (w.allaxiv.length : Int) - 1 ≤ w.axiv_idx then 0 else w.axiv_idx)
        ∧ 0 ≤ w3.axiv_idx ∧ w3.axiv_idx < (w3.allaxiv.length : Int)) := by
  obtain ⟨⟨h0, h1⟩, hmem⟩ := hwf
  have hne : w.allaxiv.isEmpty = false := by
    rw [list_isEmpty_false]
    omega
  constructor
  · intro hlen
    simp only [AhoView.close_axiv]
    rw [hne]
    simp only [Bool.false_eq_true, if_false]
    rw [if_neg (by omega : ¬ 1 < w.allaxiv.length)]
  · intro hlen
    have hr := ahoview_offset_idx_range w offset h0 h1
    have hpy : pyIndex w.allaxiv.length (w.offset_idx offset)
        = some (w.offset_idx offset).toNat := pyIndex_of_range hr.1 hr.2
    have hjDlt : (w.offset_idx offset).toNat < w.allaxiv.length := by omega
    have hlenl : (w.allaxiv.eraseIdx (w.offset_idx offset).toNat).length
        = w.allaxiv.length - 1 := by
      rw [List.length_eraseIdx]
      simp [hjDlt]
    have hmem2 : ∀ a ∈ w.allaxiv.eraseIdx (w.offset_idx offset).toNat,
        PicAxivWF a :=
      fun a ha => hmem a (List.eraseIdx_subset _ _ ha)
    by_cases hcase : (w.allaxiv.length : Int) - 1 ≤ w.axiv_idx
    · have hwf2 : AhoViewWF (AhoView.mk
          (w.allaxiv.eraseIdx (w.offset_idx offset).toNat) 0 w.pic_rescale_mode) := by
        refine ⟨⟨le_refl 0, ?_⟩, hmem2⟩
        show (0 : Int) < ((w.allaxiv.eraseIdx (w.offset_idx offset).toNat).length : Int)
        rw [hlenl]
        omega
      obtain ⟨w3, hplot, hshape⟩ := plot_ok _ sw sh hwf2
      have hsnd : w3.allaxiv.map PicAxiv.shape
          = (w.allaxiv.eraseIdx (w.offset_idx offset).toNat).map PicAxiv.shape :=
        congrArg Prod.snd hshape
      have haxiv : w3.axiv_idx = 0 := congrArg Prod.fst hshape
      refine ⟨w3, ?_, ?_, map_name_of_shape hsnd, ?_, ?_, ?_⟩
      · simp only [AhoView.close_axiv, pyDelete]
        rw [hne]
        simp only [Bool.false_eq_true, if_false]
        rw [if_pos hlen, hpy]
        simp only []
        rw [if_pos (show ((w.allaxiv.eraseIdx (w.offset_idx offset).toNat).length : Int)
            ≤ w.axiv_idx by rw [hlenl]; push_cast; omega)]
        rw [hplot]
      · rw [shape_lists_length hsnd, hlenl]
      · rw [haxiv, if_pos hcase]
      · rw [haxiv]
      · rw [haxiv, shape_lists_length hsnd, hlenl]
        show (0 : Int) < ((w.allaxiv.length - 1 : Nat) : Int)
        push_cast
        omega
    · have hwf2 : AhoViewWF (AhoView.mk
          (w.allaxiv.eraseIdx (w.offset_idx offset).toNat) w.axiv_idx
          w.pic_rescale_mode) := by
        refine ⟨⟨h0, ?_⟩, hmem2⟩
        show w.axiv_idx < ((w.allaxiv.eraseIdx (w.offset_idx offset).toNat).length : Int)
        rw [hlenl]
        push_cast
        omega
      obtain ⟨w3, hplot, hshape⟩ := plot_ok _ sw sh hwf2
      have hsnd : w3.allaxiv.map PicAxiv.shape
          = (w.allaxiv.eraseIdx (w.offset_idx offset).toNat).map PicAxiv.shape :=
        congrArg Prod.snd hshape
      have haxiv : w3.axiv_idx = w.axiv_idx := congrArg Prod.fst hshape
      refine ⟨w3, ?_, ?_, map_name_of_shape hsnd, ?_, ?_, ?_⟩
      · simp only [AhoView.close_axiv, pyDelete]
        rw [hne]
        simp only [Bool.false_eq_true, if_false]
        rw [if_pos hlen, hpy]
        simp only []
        rw [if_neg (show ¬ ((w.allaxiv.eraseIdx (w.offset_idx offset).toNat).length : Int)
            ≤ w.axiv_idx by rw [hlenl]; push_cast; omega)]
        rw [hplot]
      · rw [shape_lists_length hsnd, hlenl]
      · rw [haxiv, if_neg hcase]
      · rw [haxiv]
        exact h0
      · rw [haxiv, shape_lists_length hsnd, hlenl]
        push_cast
        omega

/-- Claim C7 witness: closing on a singleton set (offset 5) clears it;
closing at offset 0 on a two-collection set with active index 1 removes
that collection, and the active index is reset to 0 and stays in range. -/
theorem close_axiv_behavior_witness :
    ((viewLen 1 0).close_axiv 5 8 6 = .ok ({ viewLen 1 0 with allaxiv := [] }, 0))
    ∧ (∃ w3, (viewLen 2 1).close_axiv 0 8 6 = .ok (w3, 0)
        ∧ w3.allaxiv.length = 1
        ∧ w3.allaxiv.map PicAxiv.name
            = ((viewLen 2 1).allaxiv.eraseIdx
                ((viewLen 2 1).offset_idx 0).toNat).map PicAxiv.name
        ∧ w3.axiv_idx = (if ((viewLen 2 1).allaxiv.length : Int) - 1
              ≤ (viewLen 2 1).axiv_idx then 0 else (viewLen 2 1).axiv_idx)
        ∧ 0 ≤ w3.axiv_idx ∧ w3.axiv_idx < (w3.allaxiv.length : Int)) :=
  ⟨(close_axiv_behavior (viewLen 1 0) 5 8 6
      ⟨⟨by decide, by decide⟩, by
        intro a ha
        have hb := List.eq_of_mem_replicate ha
        subst hb
        intro hl
        exact ⟨by decide, by decide⟩⟩).1 rfl,
   (close_axiv_behavior (viewLen 2 1) 0 8 6
      ⟨⟨by decide, by decide⟩, by
        intro a ha
        have hb := List.eq_of_mem_replicate ha
        subst hb
        intro hl
        exact ⟨by decide, by decide⟩⟩).2 (by decide)⟩

/-- Claim C8: open on a well formed state (every collection well formed,
the new collection well formed): when the newly built collection reports
showable, it is inserted at the front and made active (index 0), with all
previously open collections present in order after it (compared by name
through the re-render, which rescores entries but does not touch the
sequence); when it is not showable, the state is returned unchanged. -/
theorem open_axiv_behavior (w : AhoView) (pf : PicAxiv) (sw sh : Nat)
    (hmem : ∀ a ∈ w.allaxiv, PicAxivWF a) (hpf : PicAxivWF pf) :
    ((pf.showable).2 = true →
      ∃ w3, w.open_axiv pf sw sh = .ok (w3, 0)
        ∧ w3.axiv_idx = 0
        ∧ w3.allaxiv.map PicAxiv.name = pf.name :: w.allaxiv.map PicAxiv.name
        ∧ w3.allaxiv.length = w.allaxiv.length + 1)
    ∧ ((pf.showable).2 = false → w.open_axiv pf sw sh = .ok (w, 0)) := by
  have hss := showable_shape_wf pf
  constructor
  · intro hb
    have hwf1 : AhoViewWF (AhoView.mk ((pf.showable).1 :: w.allaxiv) 0
        w.pic_rescale_mode) := by
      refine ⟨⟨le_refl 0, ?_⟩, ?_⟩
      · show (0 : Int) < ((((pf.showable).1 :: w.allaxiv)).length : Int)
        simp only [List.length_cons]
        push_cast
        omega
      · intro a ha
        rcases List.mem_cons.mp ha with ha | ha
        · rw [ha]
          exact hss.2.2 hpf
        · exact hmem a ha
    obtain ⟨w3, hplot, hshape⟩ := plot_ok _ sw sh hwf1
    have haxiv : w3.axiv_idx = 0 := congrArg Prod.fst hshape
    have hsnd : w3.allaxiv.map PicAxiv.shape
        = ((pf.showable).1 :: w.allaxiv).map PicAxiv.shape :=
      congrArg Prod.snd hshape
    refine ⟨w3, ?_, haxiv, ?_, ?_⟩
    · simp only [AhoView.open_axiv]
      rw [if_pos hb, hplot]
    · rw [map_name_of_shape hsnd]
      simp only [List.map_cons]
      rw [hss.1]
    · rw [shape_lists_length hsnd]
      simp
  · intro hb
    simp only [AhoView.open_axiv]
    rw [if_neg (by simp [hb])]

/-- Claim C8 witness: opening a showable two-entry collection on the empty
state inserts it at the front with active index 0; opening a not-showable
collection leaves the state unchanged. -/
theorem open_axiv_behavior_witness :
    (∃ w3, viewEmpty.open_axiv (axivLen 2 0) 8 6 = .ok (w3, 0)
        ∧ w3.axiv_idx = 0
        ∧ w3.allaxiv.map PicAxiv.name
            = (axivLen 2 0).name :: viewEmpty.allaxiv.map PicAxiv.name
        ∧ w3.allaxiv.length = viewEmpty.allaxiv.length + 1)
    ∧ viewEmpty.open_axiv axivBad 8 6 = .ok (viewEmpty, 0) :=
  ⟨(open_axiv_behavior viewEmpty (axivLen 2 0) 8 6
      (by intro a ha; simp [viewEmpty] at ha)
      (by intro hl; exact ⟨by decide, by decide⟩)).1 rfl,
   (open_axiv_behavior viewEmpty axivBad 8 6
      (by intro a ha; simp [viewEmpty] at ha)
      (by intro hl; simp [axivBad] at hl)).2 rfl⟩

/-- Claim C2 witness: the amended invariant at concrete inputs: score_set 0
and score_add (-3) on the showable entry pEx (eviction at the zero clamp),
plus the unconditional unload and delete facts. -/
theorem score_driven_ops_enforce_zero_score_eviction_witness :
    (pEx.score_set 0).1.is_loaded = false
    ∧ (pEx.score_add (-3)).1.is_loaded = false
    ∧ (pEx.unload).1.is_loaded = false
    ∧ (pEx.delete_file).1.is_loaded = false :=
  ⟨(score_driven_ops_enforce_zero_score_eviction pEx 0 (-3)).1
      (by norm_num [Pic.score_set, Pic.unload, pEx]),
   (score_driven_ops_enforce_zero_score_eviction pEx 0 (-3)).2.1
      (by norm_num [Pic.score_add, Pic.score_set, Pic.unload, pEx]),
   (score_driven_ops_enforce_zero_score_eviction pEx 0 (-3)).2.2.1,
   (score_driven_ops_enforce_zero_score_eviction pEx 0 (-3)).2.2.2⟩
